import Mathlib

/-!
PololuSMCSerial

A shallow embedding of `PololuSMCSerial.h`, the Arduino driver for the serial
protocol of the Pololu Simple Motor Controller, and theorems about the byte
frames it writes and the values it decodes.

The class owns one `SoftwareSerial` object and nothing else.  Every member
function is embedded as a function from the state of that serial port (and of
the Arduino clock, for `delay`) to the new state, together with the returned
value when there is one.

Machine integers are embedded as `Int` and `Nat` with the conversions written
out: `uint8` is the conversion to `uint8_t`, `toChar` the conversion to the
(signed) `char` of the AVR target, `wrapInt` and `toUnsigned` the wrap-around of
`int` and the conversion to `unsigned int` at a given width.
-/

namespace PololuSMCSerial

/-! ## Constants of the header -/

/-- Variable id `ERROR_STATUS`. -/
def ERROR_STATUS : Nat := 0
/-- Variable id `LIMIT_STATUS`. -/
def LIMIT_STATUS : Nat := 3
/-- Variable id `TARGET_SPEED`. -/
def TARGET_SPEED : Nat := 20
/-- Variable id `INPUT_VOLTAGE`. -/
def INPUT_VOLTAGE : Nat := 23
/-- Variable id `TEMPERATURE`. -/
def TEMPERATURE : Nat := 24

/-- Motor limit id `FORWARD_ACCELERATION`. -/
def FORWARD_ACCELERATION : Nat := 5
/-- Motor limit id `REVERSE_ACCELERATION`. -/
def REVERSE_ACCELERATION : Nat := 9
/-- Motor limit id `DECELERATION`. -/
def DECELERATION : Nat := 2

/-! ## Integer conversions -/

/-- Conversion of an integer value to `uint8_t` (and to `unsigned char`):
reduction modulo 256. -/
def uint8 (x : Int) : Nat := (x % 256).toNat

/-- Conversion of an integer value to the signed 8-bit `char`: the value modulo
256, taken in `[-128, 127]`. -/
def toChar (x : Int) : Int := (x + 128) % 256 - 128

/-- Wrap-around of a mathematical value into an `int` of `w` bits (two's
complement). -/
def wrapInt (w : Nat) (x : Int) : Int := (x + 2 ^ (w - 1)) % 2 ^ w - 2 ^ (w - 1)

/-- Conversion of an integer value to an `unsigned int` of `w` bits: reduction
modulo `2 ^ w`. -/
def toUnsigned (w : Nat) (x : Int) : Nat := (x % 2 ^ w).toNat

/-! ## The serial port -/

/-- One observable action of the driver on its environment. -/
inductive Action where
  /-- A call of `SoftwareSerial::begin(baud)`. -/
  | begin (baud : Int)
  /-- The Arduino `delay(ms)`. -/
  | delay (ms : Nat)
  /-- A call of `SoftwareSerial::write(b)`: the byte `b` is put on the line. -/
  | write (b : Nat)
  /-- A call of `SoftwareSerial::readBytes(&c, 1)`: `some b` when the byte `b` arrived
  before the timeout, `none` when the timeout expired. -/
  | read (r : Option Nat)
  deriving DecidableEq, Repr

/-- Modelled from the spec: `SoftwareSerial` is an external library, of which
the specification fixes the contract only: `write` of a byte, a blocking read
that yields a byte or nothing within the timeout, and `configure(baud)`.  A
`Port` is the state of the `smcSerial` member and the record of what the driver
did to it so far.

* `trace` is every action performed so far, oldest first;
* `rx` is what the reads still to come will yield, in order: `some b` is the
  byte `b` arriving in time, `none` is a read whose timeout expires; once `rx`
  is used up every read times out;
* `baud` is the configured baud rate, `none` before the first `begin`. -/
structure Port where
  trace : List Action
  rx : List (Option Nat)
  baud : Option Int
  deriving DecidableEq, Repr

/-- A port on which nothing has been done yet, with the read outcomes `rx`
ahead of it. -/
def Port.fresh (rx : List (Option Nat)) : Port := ⟨[], rx, none⟩

/-- The bytes written so far, oldest first. -/
def Port.written (s : Port) : List Nat :=
  s.trace.filterMap fun a => match a with
    | Action.write b => some b
    | _ => none

/-- The byte the transport yields at the next read, `none` when that read times
out. -/
def Port.nextByte (s : Port) : Option Nat :=
  match s.rx with
  | some b :: _ => some b
  | _ => none

/-- Modelled from the spec: `SoftwareSerial::begin(speed)`, the `configure(baud)`
of the transport contract. -/
def Port.begin (speed : Int) (s : Port) : Port :=
  { s with trace := s.trace ++ [Action.begin speed], baud := some speed }

/-- Modelled from the spec: `SoftwareSerial::write(uint8_t)`, the byte-level
`write` of the transport contract; the argument is converted to `uint8_t` and
sent. -/
def Port.write (b : Int) (s : Port) : Port :=
  { s with trace := s.trace ++ [Action.write (uint8 b)] }

/-- Modelled from the spec: `SoftwareSerial::readBytes(&c, 1)`, the blocking read
with timeout of the transport contract; returns `some c` when one byte was
stored in the `char` buffer (the call returned 1) and `none` when it returned
0. -/
def Port.readBytes (s : Port) : Option Int × Port :=
  match s.rx with
  | [] => (none, { s with trace := s.trace ++ [Action.read none] })
  | none :: rest => (none, { s with trace := s.trace ++ [Action.read none], rx := rest })
  | some b :: rest =>
      (some (toChar b), { s with trace := s.trace ++ [Action.read (some b)], rx := rest })

/-- Modelled from the spec: the Arduino `delay(ms)`, recorded in the trace. -/
def delay (ms : Nat) (s : Port) : Port :=
  { s with trace := s.trace ++ [Action.delay ms] }

/-! ## The member functions -/

/-- Source `void exitSafeStart() { smcSerial.write(0x83); }`. -/
def exitSafeStart (s : Port) : Port := s.write 0x83

/-- Source `void setMotorSpeed(int speed)`: the opcode depends on the sign, then
the speed, negated when negative, is sent as `speed & 0x1F` and
`speed >> 5 & 0x7F`.  The negation is exact for every `int` but the least one,
where it overflows in C++. -/
def setMotorSpeed (speed : Int) (s : Port) : Port :=
  let (speed, s) :=
    if speed < 0 then (-speed, s.write 0x86)
    else (speed, s.write 0x85)
  let s := s.write (Int.land speed 0x1F)
  s.write (Int.land (Int.shiftRight speed 5) 0x7F)

/-- Source `void setBaudRate(int br) { smcSerial.begin(br); }`. -/
def setBaudRate (br : Int) (s : Port) : Port := s.begin br

/-- Source `void detectBaudRate() { smcSerial.write(0xAA); }`. -/
def detectBaudRate (s : Port) : Port := s.write 0xAA

/-- Source `void start()`: `begin(19200)`, `delay(5)`, `write(0xAA)`,
`exitSafeStart()`. -/
def start (s : Port) : Port :=
  let s := s.begin 19200
  let s := delay 5 s
  let s := s.write 0xAA
  exitSafeStart s

/-- Source `int readByte()`: `-1` when `readBytes` stored nothing, else the stored
`char` converted to `uint8_t`. -/
def readByte (s : Port) : Int × Port :=
  match s.readBytes with
  | (none, s) => (-1, s)
  | (some c, s) => ((uint8 c : Nat), s)

/-- Source `unsigned char setForwardMotorLimit(unsigned int limitValue)`: four
writes, then the result of `readByte()` is converted to the return type
`unsigned char`. -/
def setForwardMotorLimit (limitValue : Nat) (s : Port) : Nat × Port :=
  let s := s.write 0xA2
  let s := s.write FORWARD_ACCELERATION
  let s := s.write ((limitValue &&& 0x7F : Nat) : Int)
  let s := s.write (((limitValue >>> 7) &&& 0x1F : Nat) : Int)
  let (r, s) := readByte s
  (uint8 r, s)

/-- Source `unsigned char setReverseMotorLimit(unsigned int limitValue)`. -/
def setReverseMotorLimit (limitValue : Nat) (s : Port) : Nat × Port :=
  let s := s.write 0xA2
  let s := s.write REVERSE_ACCELERATION
  let s := s.write ((limitValue &&& 0x7F : Nat) : Int)
  let s := s.write (((limitValue >>> 7) &&& 0x1F : Nat) : Int)
  let (r, s) := readByte s
  (uint8 r, s)

/-- Source `unsigned char setDecelerationLimit(unsigned int limitValue)`. -/
def setDecelerationLimit (limitValue : Nat) (s : Port) : Nat × Port :=
  let s := s.write 0xA2
  let s := s.write DECELERATION
  let s := s.write ((limitValue &&& 0x7F : Nat) : Int)
  let s := s.write (((limitValue >>> 7) &&& 0x1F : Nat) : Int)
  let (r, s) := readByte s
  (uint8 r, s)

/-- Source `unsigned int getVariable(unsigned char variableID)`, for `int` and
`unsigned int` of `w` bits.  The two calls of `readByte` are made in the order
in which they are written; the sum is computed in `int` and converted to the
return type `unsigned int`. -/
def getVariable (w : Nat) (variableID : Nat) (s : Port) : Nat × Port :=
  let s := s.write 0xA1
  let s := s.write variableID
  let (x0, s) := readByte s
  let (x1, s) := readByte s
  (toUnsigned w (wrapInt w (x0 + wrapInt w (256 * x1))), s)

end PololuSMCSerial

namespace PololuSMCSerial

/-! ## Conversions -/

theorem uint8_natCast (n : Nat) : uint8 (n : Int) = n % 256 := by
  unfold uint8
  omega

theorem uint8_of_lt (n : Nat) (h : n < 256) : uint8 (n : Int) = n := by
  rw [uint8_natCast]
  exact Nat.mod_eq_of_lt h

theorem uint8_toChar (b : Nat) : uint8 (toChar b) = b % 256 := by
  unfold uint8 toChar
  omega

theorem uint8_neg_one : uint8 (-1) = 255 := by decide

/-! ## Wrap-around of `int` -/

theorem wrapInt_emod (w : Nat) (x : Int) : wrapInt w x % 2 ^ w = x % 2 ^ w := by
  unfold wrapInt
  rw [Int.sub_emod, Int.emod_emod_of_dvd _ (dvd_refl _), ← Int.sub_emod, Int.add_sub_cancel]

theorem toUnsigned_wrapInt (w : Nat) (x : Int) : toUnsigned w (wrapInt w x) = toUnsigned w x := by
  unfold toUnsigned
  rw [wrapInt_emod]

/-- The `int` sum of `getVariable`, converted to `unsigned int`, is the exact sum
reduced modulo `2 ^ w`. -/
theorem toUnsigned_sum (w : Nat) (x0 x1 : Int) :
    toUnsigned w (wrapInt w (x0 + wrapInt w (256 * x1))) = toUnsigned w (x0 + 256 * x1) := by
  rw [toUnsigned_wrapInt]
  unfold toUnsigned
  rw [Int.add_emod, wrapInt_emod, ← Int.add_emod]

/-- An exact value that fits in 16 bits is unchanged by the conversion to an
`unsigned int` of at least 16 bits. -/
theorem toUnsigned_of_lt (w : Nat) (hw : 16 ≤ w) (n : Nat) (hn : n < 65536) :
    toUnsigned w (n : Int) = n := by
  have hpow : (65536 : Int) ≤ 2 ^ w := by
    have h1 : (2 : Nat) ^ 16 ≤ 2 ^ w := Nat.pow_le_pow_right (by decide) hw
    have h2 : ((2 ^ 16 : Nat) : Int) ≤ ((2 ^ w : Nat) : Int) := Int.ofNat_le.mpr h1
    simpa using h2
  unfold toUnsigned
  rw [Int.emod_eq_of_lt (by omega) (by omega)]
  simp

/-! ## Masks and shifts -/

theorem and_0x1F (n : Nat) : n &&& 0x1F = n % 32 :=
  Nat.and_pow_two_sub_one_eq_mod n 5

theorem and_0x7F (n : Nat) : n &&& 0x7F = n % 128 :=
  Nat.and_pow_two_sub_one_eq_mod n 7

theorem shiftRight_5 (n : Nat) : n >>> 5 = n / 32 :=
  Nat.shiftRight_eq_div_pow n 5

theorem shiftRight_7 (n : Nat) : n >>> 7 = n / 128 :=
  Nat.shiftRight_eq_div_pow n 7

theorem int_land_natCast (m n : Nat) : Int.land (m : Int) (n : Int) = ((m &&& n : Nat) : Int) :=
  rfl

theorem int_shiftRight_natCast (m k : Nat) : Int.shiftRight (m : Int) k = ((m >>> k : Nat) : Int) :=
  rfl

/-! ## Effect of the port operations -/

theorem written_append (t : List Action) (rx : List (Option Nat)) (baud : Option Int)
    (u : List Action) :
    (Port.mk (t ++ u) rx baud).written
      = (Port.mk t rx baud).written ++ (Port.mk u rx baud).written := by
  simp [Port.written, List.filterMap_append]

/-- The state after `setMotorSpeed`, for every value of `speed`: three writes,
of the opcode and of the two masked fields of the magnitude. -/
theorem setMotorSpeed_eq (speed : Int) (s : Port) :
    setMotorSpeed speed s =
      { s with trace := s.trace ++
          [Action.write (if 0 ≤ speed then 0x85 else 0x86),
           Action.write (speed.natAbs &&& 0x1F),
           Action.write ((speed.natAbs >>> 5) &&& 0x7F)] } := by
  have hlo : (speed.natAbs &&& 0x1F) < 256 := by rw [and_0x1F]; omega
  have hhi : ((speed.natAbs >>> 5) &&& 0x7F) < 256 := by rw [and_0x7F]; omega
  have e1 : Int.land (speed.natAbs : Int) 0x1F = ((speed.natAbs &&& 0x1F : Nat) : Int) :=
    int_land_natCast _ _
  have e2 : Int.land (Int.shiftRight (speed.natAbs : Int) 5) 0x7F
      = (((speed.natAbs >>> 5) &&& 0x7F : Nat) : Int) := by
    rw [int_shiftRight_natCast]; exact int_land_natCast _ _
  by_cases h : speed < 0
  · have hm : -speed = (speed.natAbs : Int) := by omega
    have h0 : ¬ (0 ≤ speed) := by omega
    simp only [setMotorSpeed, h, h0, if_true, if_false, hm, e1, e2, Port.write,
      uint8_of_lt _ hlo, uint8_of_lt _ hhi, List.append_assoc, List.cons_append,
      List.nil_append]
    rfl
  · have hm : speed = (speed.natAbs : Int) := by omega
    have h0 : 0 ≤ speed := by omega
    simp only [setMotorSpeed, h, h0, if_true, if_false]
    rw [hm, e1, e2]
    simp only [Port.write, uint8_of_lt _ hlo, uint8_of_lt _ hhi, List.append_assoc,
      List.cons_append, List.nil_append, Int.natAbs_ofNat]
    rfl

theorem write_written (b : Int) (s : Port) :
    (s.write b).written = s.written ++ [uint8 b] := by
  simp [Port.write, Port.written, List.filterMap_append]

theorem write_rx (b : Int) (s : Port) : (s.write b).rx = s.rx := rfl

theorem write_baud (b : Int) (s : Port) : (s.write b).baud = s.baud := rfl

theorem write_trace (b : Int) (s : Port) :
    (s.write b).trace = s.trace ++ [Action.write (uint8 b)] := rfl

/-- A read does not write. -/
theorem readByte_written (s : Port) : (readByte s).2.written = s.written := by
  rcases s with ⟨t, rx, baud⟩
  rcases rx with _ | ⟨_ | b, rest⟩ <;>
    simp [readByte, Port.readBytes, Port.written, List.filterMap_append]

/-- A read for which the transport has the byte `b` returns `b` as an unsigned
value and consumes it. -/
theorem readByte_of_byte (s : Port) (b : Nat) (rest : List (Option Nat))
    (h : s.rx = some b :: rest) :
    readByte s = (((b % 256 : Nat) : Int),
      { s with trace := s.trace ++ [Action.read (some b)], rx := rest }) := by
  rcases s with ⟨t, rx, baud⟩
  simp only at h
  subst h
  simp [readByte, Port.readBytes, uint8_toChar]

/-- A read whose timeout expires returns `-1`. -/
theorem readByte_of_timeout (s : Port) (h : s.nextByte = none) :
    readByte s = (-1, { s with trace := s.trace ++ [Action.read none], rx := s.rx.tail }) := by
  rcases s with ⟨t, rx, baud⟩
  rcases rx with _ | ⟨_ | b, rest⟩
  · simp [readByte, Port.readBytes]
  · simp [readByte, Port.readBytes]
  · simp [Port.nextByte] at h

/-- The four bytes written by a set-limit frame with limit id `id`. -/
theorem limit_bytes (id v : Nat) (hid : id < 256) :
    [uint8 0xA2, uint8 (id : Int), uint8 ((v &&& 0x7F : Nat) : Int),
      uint8 (((v >>> 7) &&& 0x1F : Nat) : Int)]
      = [0xA2, id, v &&& 0x7F, (v >>> 7) &&& 0x1F] := by
  have h1 : (v &&& 0x7F) < 256 := by rw [and_0x7F]; omega
  have h2 : ((v >>> 7) &&& 0x1F) < 256 := by rw [and_0x1F]; omega
  rw [uint8_of_lt _ hid, uint8_of_lt _ h1, uint8_of_lt _ h2]
  rfl

/-! ## Speed frames -/

/-- C1: for every speed in [-3200, 3200], `setMotorSpeed speed` appends exactly
three writes to the trace and changes nothing else: the opcode 0x85 when
`speed ≥ 0` and 0x86 when `speed < 0`, then `m & 0x1F`, then `(m >> 5) & 0x7F`,
for `m = |speed|`; so the written output grows by exactly these three bytes. -/
theorem C1_setMotorSpeed_frame (speed : Int) (_hlo : -3200 ≤ speed) (_hhi : speed ≤ 3200)
    (s : Port) :
    setMotorSpeed speed s =
        { s with trace := s.trace ++
            [Action.write (if 0 ≤ speed then 0x85 else 0x86),
             Action.write (speed.natAbs &&& 0x1F),
             Action.write ((speed.natAbs >>> 5) &&& 0x7F)] }
      ∧ (setMotorSpeed speed s).written = s.written ++
            [if 0 ≤ speed then 0x85 else 0x86,
             speed.natAbs &&& 0x1F,
             (speed.natAbs >>> 5) &&& 0x7F] := by
  refine ⟨setMotorSpeed_eq speed s, ?_⟩
  rw [setMotorSpeed_eq, written_append]
  rfl

theorem C1_setMotorSpeed_frame_witness :
    (setMotorSpeed (-3200) (Port.fresh [some 7])).written = [0x86, 0, 100]
      ∧ (setMotorSpeed (-3200) (Port.fresh [some 7])).rx = [some 7] := by
  have h := C1_setMotorSpeed_frame (-3200) (by decide) (by decide) (Port.fresh [some 7])
  constructor
  · rw [h.2]; decide
  · rw [h.1]; rfl

/-- C2: round trip of the speed encoding.  For every magnitude `m ≤ 3200`, the
two payload bytes that `setMotorSpeed` writes for the speed `m` and for the
speed `-m` are `low = m & 0x1F` and `high = (m >> 5) & 0x7F`, and
`low + 32 * high = m`. -/
theorem C2_speed_roundtrip (m : Nat) (hm : m ≤ 3200) (s : Port) :
    (setMotorSpeed (m : Int) s).written
        = s.written ++ [0x85, m &&& 0x1F, (m >>> 5) &&& 0x7F]
      ∧ (setMotorSpeed (-(m : Int)) s).written
        = s.written ++ [if m = 0 then 0x85 else 0x86, m &&& 0x1F, (m >>> 5) &&& 0x7F]
      ∧ (m &&& 0x1F) + 32 * ((m >>> 5) &&& 0x7F) = m := by
  refine ⟨?_, ?_, ?_⟩
  · rw [setMotorSpeed_eq, written_append]
    simp [Port.written]
  · rw [setMotorSpeed_eq, written_append]
    by_cases h : m = 0
    · subst h; simp [Port.written]
    · have hneg : ¬ (0 ≤ -(m : Int)) := by omega
      simp [Port.written, h, hneg]
  · rw [and_0x1F, shiftRight_5, and_0x7F]
    omega

theorem C2_speed_roundtrip_witness :
    (setMotorSpeed 3200 (Port.fresh [])).written = [0x85, 0, 100]
      ∧ (0 : Nat) + 32 * 100 = 3200 := by
  have h := C2_speed_roundtrip 3200 (by decide) (Port.fresh [])
  exact ⟨h.1.trans (by decide), by decide⟩

/-! ## Limit frames -/

theorem setForwardMotorLimit_written (v : Nat) (s : Port) :
    (setForwardMotorLimit v s).2.written
      = s.written ++ [0xA2, 5, v &&& 0x7F, (v >>> 7) &&& 0x1F] := by
  have hb := limit_bytes FORWARD_ACCELERATION v (by decide)
  simp only [List.cons.injEq, and_true] at hb
  simp only [setForwardMotorLimit, readByte_written, write_written, List.append_assoc,
    List.cons_append, List.nil_append, hb.1, hb.2.1, hb.2.2.1, hb.2.2.2]
  rfl

theorem setReverseMotorLimit_written (v : Nat) (s : Port) :
    (setReverseMotorLimit v s).2.written
      = s.written ++ [0xA2, 9, v &&& 0x7F, (v >>> 7) &&& 0x1F] := by
  have hb := limit_bytes REVERSE_ACCELERATION v (by decide)
  simp only [List.cons.injEq, and_true] at hb
  simp only [setReverseMotorLimit, readByte_written, write_written, List.append_assoc,
    List.cons_append, List.nil_append, hb.1, hb.2.1, hb.2.2.1, hb.2.2.2]
  rfl

theorem setDecelerationLimit_written (v : Nat) (s : Port) :
    (setDecelerationLimit v s).2.written
      = s.written ++ [0xA2, 2, v &&& 0x7F, (v >>> 7) &&& 0x1F] := by
  have hb := limit_bytes DECELERATION v (by decide)
  simp only [List.cons.injEq, and_true] at hb
  simp only [setDecelerationLimit, readByte_written, write_written, List.append_assoc,
    List.cons_append, List.nil_append, hb.1, hb.2.1, hb.2.2.1, hb.2.2.2]
  rfl

/-- C3: for every limit value `v`, `setForwardMotorLimit v`,
`setReverseMotorLimit v` and `setDecelerationLimit v` each append exactly the
four bytes `[0xA2, id, v & 0x7F, (v >> 7) & 0x1F]` to the written output, with
`id` = 5, 9 and 2 respectively; with the id byte overwritten by one common value
the three frames written on a fresh port are the same frame. -/
theorem C3_setLimit_frames (v : Nat) (s : Port) :
    (setForwardMotorLimit v s).2.written
        = s.written ++ [0xA2, 5, v &&& 0x7F, (v >>> 7) &&& 0x1F]
      ∧ (setReverseMotorLimit v s).2.written
        = s.written ++ [0xA2, 9, v &&& 0x7F, (v >>> 7) &&& 0x1F]
      ∧ (setDecelerationLimit v s).2.written
        = s.written ++ [0xA2, 2, v &&& 0x7F, (v >>> 7) &&& 0x1F]
      ∧ ((setForwardMotorLimit v (Port.fresh s.rx)).2.written).set 1 0
        = ((setReverseMotorLimit v (Port.fresh s.rx)).2.written).set 1 0
      ∧ ((setForwardMotorLimit v (Port.fresh s.rx)).2.written).set 1 0
        = ((setDecelerationLimit v (Port.fresh s.rx)).2.written).set 1 0 := by
  refine ⟨setForwardMotorLimit_written v s, setReverseMotorLimit_written v s,
    setDecelerationLimit_written v s, ?_, ?_⟩
  · rw [setForwardMotorLimit_written, setReverseMotorLimit_written]; rfl
  · rw [setForwardMotorLimit_written, setDecelerationLimit_written]; rfl

/-- C4: round trip of the limit encoding.  For every value `v ≤ 4095`, the two
value bytes that each of the three set-limit operations writes after the opcode
and the id are `low = v & 0x7F` and `high = (v >> 7) & 0x1F`, and they
reassemble to `v`: `low + 128 * high = v`. -/
theorem C4_limit_roundtrip (v : Nat) (hv : v ≤ 4095) (s : Port) :
    ∃ low high : Nat,
      low = v &&& 0x7F ∧ high = (v >>> 7) &&& 0x1F
      ∧ (setForwardMotorLimit v s).2.written = s.written ++ [0xA2, 5, low, high]
      ∧ (setReverseMotorLimit v s).2.written = s.written ++ [0xA2, 9, low, high]
      ∧ (setDecelerationLimit v s).2.written = s.written ++ [0xA2, 2, low, high]
      ∧ low + 128 * high = v := by
  refine ⟨v &&& 0x7F, (v >>> 7) &&& 0x1F, rfl, rfl, setForwardMotorLimit_written v s,
    setReverseMotorLimit_written v s, setDecelerationLimit_written v s, ?_⟩
  rw [and_0x7F, shiftRight_7, and_0x1F]
  omega

theorem C4_limit_roundtrip_witness :
    ∃ low high : Nat,
      low = 4095 &&& 0x7F ∧ high = (4095 >>> 7) &&& 0x1F
      ∧ (setForwardMotorLimit 4095 (Port.fresh [some 0])).2.written
          = (Port.fresh [some 0]).written ++ [0xA2, 5, low, high]
      ∧ (setReverseMotorLimit 4095 (Port.fresh [some 0])).2.written
          = (Port.fresh [some 0]).written ++ [0xA2, 9, low, high]
      ∧ (setDecelerationLimit 4095 (Port.fresh [some 0])).2.written
          = (Port.fresh [some 0]).written ++ [0xA2, 2, low, high]
      ∧ low + 128 * high = 4095 :=
  C4_limit_roundtrip 4095 (by decide) (Port.fresh [some 0])

/-- C8: for every limit value `v` and every status byte `b` in [0, 255] that the
transport delivers at the next read, each of the three set-limit operations
returns exactly `b`, consumes exactly that one read outcome from the receive
stream, and performs exactly four writes followed by that one read. -/
theorem C8_setLimit_returns_status (v b : Nat) (hb : b < 256) (s : Port)
    (rest : List (Option Nat)) (hrx : s.rx = some b :: rest) :
    setForwardMotorLimit v s
        = (b, { s with
            trace := s.trace ++ [Action.write 0xA2, Action.write 5, Action.write (v &&& 0x7F),
              Action.write ((v >>> 7) &&& 0x1F), Action.read (some b)],
            rx := rest })
      ∧ setReverseMotorLimit v s
        = (b, { s with
            trace := s.trace ++ [Action.write 0xA2, Action.write 9, Action.write (v &&& 0x7F),
              Action.write ((v >>> 7) &&& 0x1F), Action.read (some b)],
            rx := rest })
      ∧ setDecelerationLimit v s
        = (b, { s with
            trace := s.trace ++ [Action.write 0xA2, Action.write 2, Action.write (v &&& 0x7F),
              Action.write ((v >>> 7) &&& 0x1F), Action.read (some b)],
            rx := rest }) := by
  have hmod : b % 256 = b := Nat.mod_eq_of_lt hb
  have hf := limit_bytes FORWARD_ACCELERATION v (by decide)
  have hr := limit_bytes REVERSE_ACCELERATION v (by decide)
  have hd := limit_bytes DECELERATION v (by decide)
  simp only [List.cons.injEq, and_true] at hf hr hd
  refine ⟨?_, ?_, ?_⟩
  · simp only [setForwardMotorLimit]
    rw [readByte_of_byte _ b rest (by simpa [write_rx] using hrx)]
    simp only [write_trace, hf.1, hf.2.1, hf.2.2.1, hf.2.2.2, hmod, uint8_of_lt b hb,
      List.append_assoc, List.cons_append, List.nil_append]
    rfl
  · simp only [setReverseMotorLimit]
    rw [readByte_of_byte _ b rest (by simpa [write_rx] using hrx)]
    simp only [write_trace, hr.1, hr.2.1, hr.2.2.1, hr.2.2.2, hmod, uint8_of_lt b hb,
      List.append_assoc, List.cons_append, List.nil_append]
    rfl
  · simp only [setDecelerationLimit]
    rw [readByte_of_byte _ b rest (by simpa [write_rx] using hrx)]
    simp only [write_trace, hd.1, hd.2.1, hd.2.2.1, hd.2.2.2, hmod, uint8_of_lt b hb,
      List.append_assoc, List.cons_append, List.nil_append]
    rfl

theorem C8_setLimit_returns_status_witness :
    setForwardMotorLimit 1000 (Port.fresh [some 0xFF, some 3])
        = (0xFF, ⟨[Action.write 0xA2, Action.write 5, Action.write (1000 &&& 0x7F),
              Action.write ((1000 >>> 7) &&& 0x1F), Action.read (some 0xFF)], [some 3], none⟩) :=
  (C8_setLimit_returns_status 1000 0xFF (by decide) (Port.fresh [some 0xFF, some 3])
    [some 3] rfl).1

/-! ## Reading -/

/-- C5: for every variable id and every pair of bytes `b0`, `b1` that the
transport delivers in that order, `getVariable id` performs exactly the writes
of 0xA1 and `id` followed by two reads, consumes exactly those two bytes and
returns `b0 + 256 * b1`; with the byte stream `[0x05, 0x01]` the result is
261.  This holds at every width `w ≥ 16` of `int`. -/
theorem C5_getVariable_decodes (w : Nat) (hw : 16 ≤ w) (id b0 b1 : Nat) (hid : id < 256)
    (h0 : b0 < 256) (h1 : b1 < 256) (s : Port) (rest : List (Option Nat))
    (hrx : s.rx = some b0 :: some b1 :: rest) :
    getVariable w id s
        = (b0 + 256 * b1, { s with
            trace := s.trace ++ [Action.write 0xA1, Action.write id,
              Action.read (some b0), Action.read (some b1)],
            rx := rest })
      ∧ (getVariable w id s).2.written = s.written ++ [0xA1, id]
      ∧ (getVariable w id (Port.fresh [some 0x05, some 0x01])).1 = 261 := by
  have key : ∀ (p : Port) (c0 c1 : Nat) (r : List (Option Nat)), c0 < 256 → c1 < 256 →
      p.rx = some c0 :: some c1 :: r →
      getVariable w id p
        = (c0 + 256 * c1, { p with
            trace := p.trace ++ [Action.write 0xA1, Action.write id,
              Action.read (some c0), Action.read (some c1)],
            rx := r }) := by
    intro p c0 c1 r hc0 hc1 hp
    have hsum : toUnsigned w (((c0 + 256 * c1 : Nat) : Int)) = c0 + 256 * c1 :=
      toUnsigned_of_lt w hw _ (by omega)
    simp only [getVariable]
    rw [readByte_of_byte _ c0 (some c1 :: r) (by simpa [write_rx] using hp)]
    simp only []
    rw [readByte_of_byte _ c1 r rfl]
    simp only [toUnsigned_sum, Nat.mod_eq_of_lt hc0, Nat.mod_eq_of_lt hc1]
    rw [show ((c0 : Int) + 256 * (c1 : Int)) = ((c0 + 256 * c1 : Nat) : Int) by push_cast; ring,
      hsum]
    simp only [write_trace, uint8_of_lt id hid, List.append_assoc, List.cons_append,
      List.nil_append]
    rfl
  refine ⟨key s b0 b1 rest h0 h1 hrx, ?_, ?_⟩
  · rw [key s b0 b1 rest h0 h1 hrx]
    simp [Port.written, List.filterMap_append]
  · rw [key (Port.fresh [some 0x05, some 0x01]) 5 1 [] (by decide) (by decide) rfl]

theorem C5_getVariable_decodes_witness :
    (getVariable 16 TARGET_SPEED (Port.fresh [some 0x34, some 0x12])).1 = 0x1234 := by
  have h := (C5_getVariable_decodes 16 (by decide) TARGET_SPEED 0x34 0x12 (by decide)
    (by decide) (by decide) (Port.fresh [some 0x34, some 0x12]) [] rfl).1
  rw [h]

/-- C6: `readByte` returns `-1` if and only if the transport yields no byte within
the timeout; when the transport yields a byte `b` in [0, 255] it returns `b`
itself, a value in [0, 255], also for the bytes 0x80..0xFF (no sign extension);
hence the result of a timed-out read differs from the result of every read that
received a byte. -/
theorem C6_readByte_sentinel (s : Port) :
    ((readByte s).1 = -1 ↔ s.nextByte = none)
      ∧ (∀ b : Nat, b < 256 → s.nextByte = some b →
          (readByte s).1 = (b : Int) ∧ 0 ≤ (readByte s).1 ∧ (readByte s).1 ≤ 255)
      ∧ (∀ (t : Port) (b : Nat), s.nextByte = none → t.nextByte = some b →
          (readByte s).1 ≠ (readByte t).1) := by
  have hbyte : ∀ (p : Port) (b : Nat), p.nextByte = some b →
      (readByte p).1 = ((b % 256 : Nat) : Int) := by
    intro p b hp
    rcases p with ⟨tr, rx, baud⟩
    rcases rx with _ | ⟨_ | c, rest⟩
    · simp [Port.nextByte] at hp
    · simp [Port.nextByte] at hp
    · simp only [Port.nextByte, Option.some.injEq] at hp
      subst hp
      rw [readByte_of_byte _ c rest rfl]
  refine ⟨?_, ?_, ?_⟩
  · constructor
    · intro h
      cases hn : s.nextByte with
      | none => rfl
      | some b =>
        rw [hbyte s b hn] at h
        omega
    · intro h
      rw [readByte_of_timeout s h]
  · intro b hb hn
    rw [hbyte s b hn, Nat.mod_eq_of_lt hb]
    omega
  · intro t b hs ht
    rw [readByte_of_timeout s hs, hbyte t b ht]
    simp only []
    omega

theorem C6_readByte_sentinel_witness :
    (readByte (Port.fresh [some 0xFF])).1 = 255
      ∧ (readByte (Port.fresh [none, some 0xFF])).1 ≠ (readByte (Port.fresh [some 0xFF])).1 :=
  ⟨((C6_readByte_sentinel (Port.fresh [some 0xFF])).2.1 0xFF (by decide) rfl).1,
   (C6_readByte_sentinel (Port.fresh [none, some 0xFF])).2.2 (Port.fresh [some 0xFF]) 0xFF
      rfl rfl⟩

/-- C7 (the code at the failing input): when the read times out, each of the three
set-limit operations returns 255, the value `-1` of `readByte` converted to the
return type `unsigned char`; it is the value they return when the controller
sends the status byte 255.  The port states still differ, the returned values do
not. -/
theorem C7_setLimit_timeout_returns_255 :
    (setForwardMotorLimit 0 (Port.fresh [])).1 = 255
      ∧ (setForwardMotorLimit 0 (Port.fresh [some 255])).1 = 255
      ∧ (setReverseMotorLimit 0 (Port.fresh [])).1 = 255
      ∧ (setReverseMotorLimit 0 (Port.fresh [some 255])).1 = 255
      ∧ (setDecelerationLimit 0 (Port.fresh [])).1 = 255
      ∧ (setDecelerationLimit 0 (Port.fresh [some 255])).1 = 255
      ∧ (readByte (Port.fresh [])).1 = -1
      ∧ (readByte (Port.fresh [some 255])).1 = 255 := by
  decide

/-! ## Start-up -/

/-- C9: `start` performs exactly four actions and no others, in this order:
`begin(19200)`, `delay(5)`, the write of 0xAA, the write of 0x83; it leaves the
receive stream untouched and the baud rate at 19200, and it is the same state
change as `setBaudRate 19200`, `delay 5`, `detectBaudRate`, `exitSafeStart` in
sequence.  On a fresh port the whole trace is these four actions. -/
theorem C9_start_sequence (s : Port) :
    start s = { trace := s.trace ++ [Action.begin 19200, Action.delay 5,
                  Action.write 0xAA, Action.write 0x83],
                rx := s.rx, baud := some 19200 }
      ∧ start s = exitSafeStart (detectBaudRate (delay 5 (setBaudRate 19200 s)))
      ∧ (start (Port.fresh s.rx)).trace
          = [Action.begin 19200, Action.delay 5, Action.write 0xAA, Action.write 0x83]
      ∧ (start (Port.fresh s.rx)).written = [0xAA, 0x83] := by
  have e1 : uint8 0xAA = 0xAA := by decide
  have e2 : uint8 0x83 = 0x83 := by decide
  refine ⟨?_, rfl, ?_, ?_⟩
  · simp only [start, exitSafeStart, Port.write, Port.begin, delay, e1, e2, List.append_assoc,
      List.cons_append, List.nil_append]
  · simp only [start, exitSafeStart, Port.write, Port.begin, delay, Port.fresh, e1, e2,
      List.nil_append, List.cons_append]
  · simp only [start, exitSafeStart, Port.write, Port.begin, delay, Port.fresh, e1, e2,
      List.nil_append, List.cons_append, Port.written]
    rfl

/-- C10: `exitSafeStart` appends the single write of 0x83 and changes nothing
else; called twice it appends exactly the two bytes `[0x83, 0x83]` to the
written output, and the receive stream and the baud configuration are
unchanged. -/
theorem C10_exitSafeStart_twice (s : Port) :
    exitSafeStart s = { s with trace := s.trace ++ [Action.write 0x83] }
      ∧ (exitSafeStart s).written = s.written ++ [0x83]
      ∧ exitSafeStart (exitSafeStart s)
          = { s with trace := s.trace ++ [Action.write 0x83, Action.write 0x83] }
      ∧ (exitSafeStart (exitSafeStart s)).written = s.written ++ [0x83, 0x83]
      ∧ (exitSafeStart (exitSafeStart s)).rx = s.rx
      ∧ (exitSafeStart (exitSafeStart s)).baud = s.baud := by
  have e2 : uint8 0x83 = 0x83 := by decide
  refine ⟨?_, ?_, ?_, ?_, rfl, rfl⟩
  · simp only [exitSafeStart, Port.write, e2]
  · simp only [exitSafeStart, write_written, e2]
  · simp only [exitSafeStart, Port.write, e2, List.append_assoc, List.cons_append,
      List.nil_append]
  · simp only [exitSafeStart, write_written, e2, List.append_assoc, List.cons_append,
      List.nil_append]

/-! ## Write-only operations -/

theorem setMotorSpeed_written (speed : Int) (s : Port) :
    (setMotorSpeed speed s).written = s.written ++
      [if 0 ≤ speed then 0x85 else 0x86, speed.natAbs &&& 0x1F,
        (speed.natAbs >>> 5) &&& 0x7F] := by
  rw [setMotorSpeed_eq, written_append]
  rfl

theorem setMotorSpeed_natCast_written (m : Nat) (s : Port) :
    (setMotorSpeed (m : Int) s).written
      = s.written ++ [0x85, m &&& 0x1F, (m >>> 5) &&& 0x7F] := by
  rw [setMotorSpeed_written]
  simp

/-- C12: `setMotorSpeed`, `exitSafeStart` and `detectBaudRate` only write.  For
every input and every port each of them appends write actions to the trace and
nothing else, so no read is performed and the receive stream is left as it was;
`detectBaudRate` writes exactly the single byte 0xAA. -/
theorem C12_write_only (speed : Int) (s : Port) :
    (setMotorSpeed speed s).rx = s.rx
      ∧ (exitSafeStart s).rx = s.rx
      ∧ (detectBaudRate s).rx = s.rx
      ∧ setMotorSpeed speed s
          = { s with trace := s.trace ++
                [Action.write (if 0 ≤ speed then 0x85 else 0x86),
                 Action.write (speed.natAbs &&& 0x1F),
                 Action.write ((speed.natAbs >>> 5) &&& 0x7F)] }
      ∧ exitSafeStart s = { s with trace := s.trace ++ [Action.write 0x83] }
      ∧ detectBaudRate s = { s with trace := s.trace ++ [Action.write 0xAA] }
      ∧ (detectBaudRate s).written = s.written ++ [0xAA] := by
  have e1 : uint8 0xAA = 0xAA := by decide
  have e2 : uint8 0x83 = 0x83 := by decide
  refine ⟨?_, rfl, rfl, setMotorSpeed_eq speed s, ?_, ?_, ?_⟩
  · rw [setMotorSpeed_eq]
  · simp only [exitSafeStart, Port.write, e2]
  · simp only [detectBaudRate, Port.write, e1]
  · simp only [detectBaudRate, write_written, e1]

/-! ## Width of the speed encoding -/

/-- C13 (as stated, refuted): the magnitude 4096 is within 13 bits, yet
`setMotorSpeed 4096` writes the payload bytes 0 and 0, which do not reassemble to
4096 and are the bytes written for the magnitude 0. -/
theorem C13_thirteen_bits_counterexample :
    (setMotorSpeed 4096 (Port.fresh [])).written = [0x85, 0, 0]
      ∧ (4096 &&& 0x1F) + 32 * ((4096 >>> 5) &&& 0x7F) ≠ 4096
      ∧ (setMotorSpeed 4096 (Port.fresh [])).written
          = (setMotorSpeed 0 (Port.fresh [])).written := by
  decide

/-- C13 (amended): the speed magnitude is encoded as an unsigned 12-bit value.
For every magnitude `m` in [0, 4095] the two payload bytes written by
`setMotorSpeed m` are `low = m & 0x1F` and `high = (m >> 5) & 0x7F`, and
`low + 32 * high = m`; so two magnitudes in that range for which the same bytes
are written are equal. -/
theorem C13_speed_twelve_bits (m : Nat) (hm : m ≤ 4095) (s : Port) :
    (setMotorSpeed (m : Int) s).written
        = s.written ++ [0x85, m &&& 0x1F, (m >>> 5) &&& 0x7F]
      ∧ (m &&& 0x1F) + 32 * ((m >>> 5) &&& 0x7F) = m
      ∧ ∀ n : Nat, n ≤ 4095 →
          (setMotorSpeed (n : Int) s).written = (setMotorSpeed (m : Int) s).written → n = m := by
  refine ⟨setMotorSpeed_natCast_written m s, ?_, ?_⟩
  · rw [and_0x1F, shiftRight_5, and_0x7F]
    omega
  · intro n hn h
    rw [setMotorSpeed_natCast_written, setMotorSpeed_natCast_written] at h
    have h2 := List.append_cancel_left h
    simp only [List.cons.injEq, and_true, true_and] at h2
    rw [and_0x1F, shiftRight_5, and_0x7F, and_0x1F, shiftRight_5, and_0x7F] at h2
    omega

theorem C13_speed_twelve_bits_witness :
    (setMotorSpeed 4095 (Port.fresh [])).written = [0x85, 31, 127]
      ∧ (31 : Nat) + 32 * 127 = 4095 := by
  have h := C13_speed_twelve_bits 4095 (by decide) (Port.fresh [])
  exact ⟨h.1.trans (by decide), by decide⟩

/-! ## Out-of-range inputs -/

theorem speed_payload_mod (m : Nat) :
    (m &&& 0x1F) + 32 * ((m >>> 5) &&& 0x7F) = m % 4096 := by
  rw [and_0x1F, shiftRight_5, and_0x7F]
  omega

theorem limit_payload_mod (v : Nat) :
    (v &&& 0x7F) + 128 * ((v >>> 7) &&& 0x1F) = v % 4096 := by
  rw [and_0x7F, shiftRight_7, and_0x1F]
  omega

theorem speed_fields_add (m k : Nat) :
    (m + 4096 * k) &&& 0x1F = m &&& 0x1F
      ∧ ((m + 4096 * k) >>> 5) &&& 0x7F = (m >>> 5) &&& 0x7F := by
  rw [and_0x1F, and_0x1F, shiftRight_5, shiftRight_5, and_0x7F, and_0x7F]
  omega

theorem limit_fields_add (v k : Nat) :
    (v + 4096 * k) &&& 0x7F = v &&& 0x7F
      ∧ ((v + 4096 * k) >>> 7) &&& 0x1F = (v >>> 7) &&& 0x1F := by
  rw [and_0x7F, and_0x7F, shiftRight_7, shiftRight_7, and_0x1F, and_0x1F]
  omega

theorem ldiff_mask (n k : Nat) (h : n ≤ k) : Nat.ldiff (2 ^ n - 1) (2 ^ k - 1) = 0 := by
  apply Nat.eq_of_testBit_eq
  intro i
  rw [Nat.testBit_ldiff, Nat.testBit_two_pow_sub_one, Nat.testBit_two_pow_sub_one]
  simp
  omega

/-- At the least `int`, where the negation `speed = -speed` overflows, the two
payload expressions have the same value, 0, whether the negation is taken
exactly or wraps around to the least `int` again (shown at the widths 16 and
32, with `>>` on a negative `int` the arithmetic shift). -/
theorem negation_overflow_bytes :
    (wrapInt 16 (-(-32768)) = -32768
        ∧ Int.land (-32768) 0x1F = 0
        ∧ Int.land (Int.shiftRight (-32768) 5) 0x7F = 0
        ∧ Int.land (-(-32768)) 0x1F = 0
        ∧ Int.land (Int.shiftRight (-(-32768)) 5) 0x7F = 0)
      ∧ (wrapInt 32 (-(-2147483648)) = -2147483648
        ∧ Int.land (-2147483648) 0x1F = 0
        ∧ Int.land (Int.shiftRight (-2147483648) 5) 0x7F = 0
        ∧ Int.land (-(-2147483648)) 0x1F = 0
        ∧ Int.land (Int.shiftRight (-(-2147483648)) 5) 0x7F = 0) := by
  have m1 := ldiff_mask 5 15 (by decide)
  have m2 := ldiff_mask 7 10 (by decide)
  have m3 := ldiff_mask 5 31 (by decide)
  have m4 := ldiff_mask 7 26 (by decide)
  norm_num at m1 m2 m3 m4
  refine ⟨⟨by decide, ?_, ?_, by decide, by decide⟩, ⟨by decide, ?_, ?_, by decide, by decide⟩⟩
  · show ((Nat.ldiff 31 32767 : Nat) : Int) = 0
    rw [m1]; rfl
  · show ((Nat.ldiff 127 (32767 >>> 5) : Nat) : Int) = 0
    rw [show (32767 >>> 5 : Nat) = 1023 by decide, m2]; rfl
  · show ((Nat.ldiff 31 2147483647 : Nat) : Int) = 0
    rw [m3]; rfl
  · show ((Nat.ldiff 127 (2147483647 >>> 5) : Nat) : Int) = 0
    rw [show (2147483647 >>> 5 : Nat) = 67108863 by decide, m4]; rfl

/-- C14: out-of-range inputs are truncated by the masks, and the truncation is
reduction modulo 4096.  For every non-negative speed `m` the payload bytes
written by `setMotorSpeed m` satisfy `low + 32 * high = m mod 4096`; for every
limit value `v` the value bytes written by the three set-limit operations satisfy
`low + 128 * high = v mod 4096`; an input changed by a multiple of 4096 gives
the same result and the same port state, so nothing reports the truncation. -/
theorem C14_truncation_mod_4096 (m v k : Nat) (s : Port) :
    (setMotorSpeed (m : Int) s).written
        = s.written ++ [0x85, m &&& 0x1F, (m >>> 5) &&& 0x7F]
      ∧ (m &&& 0x1F) + 32 * ((m >>> 5) &&& 0x7F) = m % 4096
      ∧ (setForwardMotorLimit v s).2.written
          = s.written ++ [0xA2, 5, v &&& 0x7F, (v >>> 7) &&& 0x1F]
      ∧ (setReverseMotorLimit v s).2.written
          = s.written ++ [0xA2, 9, v &&& 0x7F, (v >>> 7) &&& 0x1F]
      ∧ (setDecelerationLimit v s).2.written
          = s.written ++ [0xA2, 2, v &&& 0x7F, (v >>> 7) &&& 0x1F]
      ∧ (v &&& 0x7F) + 128 * ((v >>> 7) &&& 0x1F) = v % 4096
      ∧ setMotorSpeed ((m + 4096 * k : Nat) : Int) s = setMotorSpeed (m : Int) s
      ∧ setForwardMotorLimit (v + 4096 * k) s = setForwardMotorLimit v s
      ∧ setReverseMotorLimit (v + 4096 * k) s = setReverseMotorLimit v s
      ∧ setDecelerationLimit (v + 4096 * k) s = setDecelerationLimit v s := by
  have hs := speed_fields_add m k
  have hl := limit_fields_add v k
  refine ⟨setMotorSpeed_natCast_written m s, speed_payload_mod m,
    setForwardMotorLimit_written v s, setReverseMotorLimit_written v s,
    setDecelerationLimit_written v s, limit_payload_mod v, ?_, ?_, ?_, ?_⟩
  · rw [setMotorSpeed_eq, setMotorSpeed_eq]
    simp only [Int.natAbs_ofNat, hs.1, hs.2, Int.ofNat_zero_le, if_true]
  · simp only [setForwardMotorLimit, hl.1, hl.2]
  · simp only [setReverseMotorLimit, hl.1, hl.2]
  · simp only [setDecelerationLimit, hl.1, hl.2]

/-- C16: the payload bytes are 7-bit clean for every input.  For every `int`
speed the two data bytes written by `setMotorSpeed` are at most 0x1F and 0x7F;
for every limit value the two value bytes written by each set-limit operation
are at most 0x7F and 0x1F; so each of these bytes is below 0x80. -/
theorem C16_payload_seven_bit_clean (speed : Int) (v : Nat) (s : Port) :
    (∃ op low high : Nat,
        (setMotorSpeed speed s).written = s.written ++ [op, low, high]
          ∧ low ≤ 0x1F ∧ high ≤ 0x7F ∧ low < 0x80 ∧ high < 0x80)
      ∧ (∃ low high : Nat,
          (setForwardMotorLimit v s).2.written = s.written ++ [0xA2, 5, low, high]
            ∧ (setReverseMotorLimit v s).2.written = s.written ++ [0xA2, 9, low, high]
            ∧ (setDecelerationLimit v s).2.written = s.written ++ [0xA2, 2, low, high]
            ∧ low ≤ 0x7F ∧ high ≤ 0x1F ∧ low < 0x80 ∧ high < 0x80) := by
  constructor
  · refine ⟨_, _, _, setMotorSpeed_written speed s, ?_, ?_, ?_, ?_⟩
    · rw [and_0x1F]; omega
    · rw [and_0x7F]; omega
    · rw [and_0x1F]; omega
    · rw [and_0x7F]; omega
  · refine ⟨_, _, setForwardMotorLimit_written v s, setReverseMotorLimit_written v s,
      setDecelerationLimit_written v s, ?_, ?_, ?_, ?_⟩
    · rw [and_0x7F]; omega
    · rw [and_0x1F]; omega
    · rw [and_0x7F]; omega
    · rw [and_0x1F]; omega

/-- C17: `setMotorSpeed` is injective on its documented domain.  For speeds `s1`,
`s2` in [-3200, 3200], if `setMotorSpeed s1` and `setMotorSpeed s2` write the
same bytes on the same port then `s1 = s2`; speed 0 is written with the forward
opcode 0x85, and no speed in the domain writes the reverse frame of magnitude
0. -/
theorem C17_setMotorSpeed_injective (s1 s2 : Int) (h1 : -3200 ≤ s1 ∧ s1 ≤ 3200)
    (h2 : -3200 ≤ s2 ∧ s2 ≤ 3200) (p : Port) :
    ((setMotorSpeed s1 p).written = (setMotorSpeed s2 p).written → s1 = s2)
      ∧ (setMotorSpeed 0 p).written = p.written ++ [0x85, 0, 0]
      ∧ (setMotorSpeed s1 p).written ≠ p.written ++ [0x86, 0, 0] := by
  have r1 := speed_payload_mod s1.natAbs
  have r2 := speed_payload_mod s2.natAbs
  refine ⟨?_, ?_, ?_⟩
  · intro h
    rw [setMotorSpeed_written, setMotorSpeed_written] at h
    have h3 := List.append_cancel_left h
    simp only [List.cons.injEq, and_true] at h3
    obtain ⟨hop, hlow, hhigh⟩ := h3
    rw [hlow, hhigh] at r1
    have habs : s1.natAbs = s2.natAbs := by omega
    split_ifs at hop <;> omega
  · rw [setMotorSpeed_written]
    rfl
  · intro h
    rw [setMotorSpeed_written] at h
    have h3 := List.append_cancel_left h
    simp only [List.cons.injEq, and_true] at h3
    obtain ⟨hop, hlow, hhigh⟩ := h3
    rw [hlow, hhigh] at r1
    split_ifs at hop <;> omega

theorem C17_setMotorSpeed_injective_witness :
    (setMotorSpeed (-1) (Port.fresh [])).written ≠ (setMotorSpeed 1 (Port.fresh [])).written
      ∧ (setMotorSpeed (-3200) (Port.fresh [])).written ≠ [0x86, 0, 0] := by
  constructor
  · intro h
    have hh := (C17_setMotorSpeed_injective (-1) 1 (by decide) (by decide) (Port.fresh [])).1 h
    exact absurd hh (by decide)
  · exact (C17_setMotorSpeed_injective (-3200) 0 (by decide) (by decide) (Port.fresh [])).2.2

/-! ## Timeouts in `getVariable` -/

/-- The value of `readByte` depends on the receive stream only. -/
theorem readByte_fst_congr (p q : Port) (h : p.rx = q.rx) : (readByte p).1 = (readByte q).1 := by
  rcases p with ⟨tp, rxp, bp⟩
  rcases q with ⟨tq, rxq, bq⟩
  simp only at h
  subst h
  rcases rxp with _ | ⟨_ | b, rest⟩ <;> simp [readByte, Port.readBytes]

/-- Every read appends one read action, of what the transport yields, and drops
one outcome from the receive stream. -/
theorem readByte_snd (s : Port) :
    (readByte s).2 = { s with trace := s.trace ++ [Action.read s.nextByte], rx := s.rx.tail } := by
  rcases s with ⟨t, rx, baud⟩
  rcases rx with _ | ⟨_ | b, rest⟩ <;> simp [readByte, Port.readBytes, Port.nextByte]

/-- The value of a read is `-1` or a value in [0, 255]. -/
theorem readByte_range (s : Port) :
    (readByte s).1 = -1 ∨ (0 ≤ (readByte s).1 ∧ (readByte s).1 ≤ 255) := by
  rcases s with ⟨t, rx, baud⟩
  rcases rx with _ | ⟨_ | b, rest⟩
  · left; simp [readByte, Port.readBytes]
  · left; simp [readByte, Port.readBytes]
  · right
    rw [readByte_of_byte _ b rest rfl]
    simp only []
    omega

/-- The result of `getVariable` on every port: two writes, two reads, and the
sum of the two read values converted to `unsigned int`. -/
theorem getVariable_eq (w id : Nat) (s : Port) :
    getVariable w id s
      = (toUnsigned w ((readByte (Port.fresh s.rx)).1
            + 256 * (readByte (Port.fresh s.rx.tail)).1),
         { s with
            trace := s.trace ++ [Action.write 0xA1, Action.write (id % 256),
              Action.read s.nextByte, Action.read (Port.fresh s.rx.tail).nextByte],
            rx := s.rx.tail.tail }) := by
  have e1 : uint8 0xA1 = 0xA1 := by decide
  have hv : getVariable w id s
      = (toUnsigned w ((readByte ((s.write 0xA1).write id)).1
            + 256 * (readByte (readByte ((s.write 0xA1).write id)).2).1),
          (readByte (readByte ((s.write 0xA1).write id)).2).2) := by
    simp only [getVariable, toUnsigned_sum]
  rw [hv, readByte_fst_congr ((s.write 0xA1).write id) (Port.fresh s.rx) rfl,
    readByte_fst_congr (readByte ((s.write 0xA1).write id)).2 (Port.fresh s.rx.tail)
      (by rw [readByte_snd]; rfl)]
  rw [readByte_snd, readByte_snd]
  simp only [Port.write, e1, uint8_natCast, Port.nextByte, Port.fresh, List.append_assoc,
    List.cons_append, List.nil_append]

theorem readByte_neg_one_iff (s : Port) : (readByte s).1 = -1 ↔ s.nextByte = none := by
  rcases s with ⟨t, rx, baud⟩
  rcases rx with _ | ⟨_ | b, rest⟩
  · simp [readByte, Port.readBytes, Port.nextByte]
  · simp [readByte, Port.readBytes, Port.nextByte]
  · rw [readByte_of_byte _ b rest rfl]
    simp only [Port.nextByte]
    constructor
    · intro h; omega
    · intro h; cases h

theorem readByte_value_of_byte (s : Port) (b : Nat) (hb : b < 256) (h : s.nextByte = some b) :
    (readByte s).1 = (b : Int) := by
  rcases s with ⟨t, rx, baud⟩
  rcases rx with _ | ⟨_ | c, rest⟩
  · simp [Port.nextByte] at h
  · simp [Port.nextByte] at h
  · simp only [Port.nextByte, Option.some.injEq] at h
    subst h
    rw [readByte_of_byte _ c rest rfl, Nat.mod_eq_of_lt hb]

/-- The value returned by `getVariable` for a complete two-byte response. -/
theorem getVariable_value_of_bytes (w : Nat) (hw : 16 ≤ w) (id b0 b1 : Nat) (h0 : b0 < 256)
    (h1 : b1 < 256) (s : Port) (rest : List (Option Nat))
    (hrx : s.rx = some b0 :: some b1 :: rest) :
    (getVariable w id s).1 = b0 + 256 * b1 := by
  rw [getVariable_eq, hrx]
  simp only [List.tail_cons]
  rw [readByte_value_of_byte (Port.fresh (some b0 :: some b1 :: rest)) b0 h0 rfl,
    readByte_value_of_byte (Port.fresh (some b1 :: rest)) b1 h1 rfl,
    show ((b0 : Int) + 256 * (b1 : Int)) = ((b0 + 256 * b1 : Nat) : Int) by push_cast; ring]
  exact toUnsigned_of_lt w hw _ (by omega)

/-- C15: in `getVariable` a read that times out contributes `-1` to the
arithmetic.  With `x0`, `x1` the values of the first and of the second read
(each is `-1` exactly when that read times out, and the byte itself, in
[0, 255], when a byte arrives), `getVariable` returns `x0 + 256 * x1` reduced
modulo `2 ^ w`, for the width `w` of `unsigned int`; both reads are performed
whatever the first one yields, and when both time out the result at width 16 is
65279. -/
theorem C15_getVariable_timeout_arithmetic (w id : Nat) (s : Port) :
    (getVariable w id s).1
        = (((readByte (Port.fresh s.rx)).1 + 256 * (readByte (Port.fresh s.rx.tail)).1)
            % 2 ^ w).toNat
      ∧ ((readByte (Port.fresh s.rx)).1 = -1 ↔ s.nextByte = none)
      ∧ ((readByte (Port.fresh s.rx.tail)).1 = -1 ↔ (Port.fresh s.rx.tail).nextByte = none)
      ∧ (∀ b : Nat, b < 256 → s.nextByte = some b → (readByte (Port.fresh s.rx)).1 = (b : Int))
      ∧ (∀ b : Nat, b < 256 → (Port.fresh s.rx.tail).nextByte = some b →
          (readByte (Port.fresh s.rx.tail)).1 = (b : Int))
      ∧ (getVariable w id s).2.trace
          = s.trace ++ [Action.write 0xA1, Action.write (id % 256),
              Action.read s.nextByte, Action.read (Port.fresh s.rx.tail).nextByte]
      ∧ (getVariable w id s).2.rx = s.rx.tail.tail
      ∧ (s.nextByte = none → (Port.fresh s.rx.tail).nextByte = none →
          (getVariable 16 id s).1 = 65279) := by
  refine ⟨?_, readByte_neg_one_iff (Port.fresh s.rx), readByte_neg_one_iff _, ?_, ?_, ?_, ?_, ?_⟩
  · rw [getVariable_eq]
    rfl
  · intro b hb h
    exact readByte_value_of_byte (Port.fresh s.rx) b hb h
  · intro b hb h
    exact readByte_value_of_byte (Port.fresh s.rx.tail) b hb h
  · rw [getVariable_eq]
  · rw [getVariable_eq]
  · intro h0 h1
    have e0 : (readByte (Port.fresh s.rx)).1 = -1 :=
      (readByte_neg_one_iff (Port.fresh s.rx)).mpr h0
    have e1 : (readByte (Port.fresh s.rx.tail)).1 = -1 := (readByte_neg_one_iff _).mpr h1
    rw [getVariable_eq, e0, e1]
    show toUnsigned 16 (-1 + 256 * -1) = 65279
    decide

theorem C15_getVariable_timeout_arithmetic_witness :
    (getVariable 16 TEMPERATURE (Port.fresh [none, none, some 7])).1 = 65279
      ∧ (readByte (Port.fresh [some 0x80])).1 = 128 :=
  ⟨(C15_getVariable_timeout_arithmetic 16 TEMPERATURE (Port.fresh [none, none, some 7])).2.2.2.2.2.2.2
      rfl rfl,
   (C15_getVariable_timeout_arithmetic 16 TEMPERATURE (Port.fresh [some 0x80])).2.2.2.1 0x80
      (by decide) rfl⟩

/-- C11 (the code at the failing inputs): a `getVariable` exchange in which a read
timed out returns a value that a complete two-byte response also returns.  At
width 16: first read timed out and second byte 1 gives 255, as the response
`[0xFF, 0x00]`; both reads timed out gives 65279, as `[0xFF, 0xFE]`; first byte
5 and second read timed out gives 65285, as `[0x05, 0xFF]`.  At width 32 the
first case still gives 255. -/
theorem C11_getVariable_timeout_collides :
    (getVariable 16 TARGET_SPEED (Port.fresh [none, some 1])).1 = 255
      ∧ (getVariable 16 TARGET_SPEED (Port.fresh [some 0xFF, some 0x00])).1 = 255
      ∧ (getVariable 16 TARGET_SPEED (Port.fresh [])).1 = 65279
      ∧ (getVariable 16 TARGET_SPEED (Port.fresh [some 0xFF, some 0xFE])).1 = 65279
      ∧ (getVariable 16 TARGET_SPEED (Port.fresh [some 5])).1 = 65285
      ∧ (getVariable 16 TARGET_SPEED (Port.fresh [some 0x05, some 0xFF])).1 = 65285
      ∧ (getVariable 32 TARGET_SPEED (Port.fresh [none, some 1])).1 = 255
      ∧ (getVariable 32 TARGET_SPEED (Port.fresh [some 0xFF, some 0x00])).1 = 255 := by
  decide

/-- C18: for complete two-byte responses the decoding of `getVariable` is a
bijection between byte pairs and 16-bit values, at every width `w ≥ 16`: for
bytes `b0`, `b1` in [0, 255] the result is at most 65535, two responses with the
same result are the same pair, and every value in [0, 65535] is the result of
some pair. -/
theorem C18_getVariable_bijection (w : Nat) (hw : 16 ≤ w) (id : Nat) :
    (∀ (s : Port) (b0 b1 : Nat) (rest : List (Option Nat)), b0 < 256 → b1 < 256 →
        s.rx = some b0 :: some b1 :: rest → (getVariable w id s).1 ≤ 65535)
      ∧ (∀ (s t : Port) (b0 b1 c0 c1 : Nat) (r1 r2 : List (Option Nat)),
          b0 < 256 → b1 < 256 → c0 < 256 → c1 < 256 →
          s.rx = some b0 :: some b1 :: r1 → t.rx = some c0 :: some c1 :: r2 →
          (getVariable w id s).1 = (getVariable w id t).1 → b0 = c0 ∧ b1 = c1)
      ∧ (∀ n : Nat, n ≤ 65535 → ∃ b0 b1 : Nat, b0 < 256 ∧ b1 < 256 ∧
          ∀ (s : Port) (rest : List (Option Nat)), s.rx = some b0 :: some b1 :: rest →
            (getVariable w id s).1 = n) := by
  refine ⟨?_, ?_, ?_⟩
  · intro s b0 b1 rest h0 h1 hrx
    rw [getVariable_value_of_bytes w hw id b0 b1 h0 h1 s rest hrx]
    omega
  · intro s t b0 b1 c0 c1 r1 r2 h0 h1 g0 g1 hs ht h
    rw [getVariable_value_of_bytes w hw id b0 b1 h0 h1 s r1 hs,
      getVariable_value_of_bytes w hw id c0 c1 g0 g1 t r2 ht] at h
    omega
  · intro n hn
    refine ⟨n % 256, n / 256, by omega, by omega, ?_⟩
    intro s rest hrx
    rw [getVariable_value_of_bytes w hw id (n % 256) (n / 256) (by omega) (by omega) s rest hrx]
    omega

theorem C18_getVariable_bijection_witness :
    (getVariable 16 INPUT_VOLTAGE (Port.fresh [some 0xFF, some 0xFF])).1 ≤ 65535
      ∧ ∃ b0 b1 : Nat, b0 < 256 ∧ b1 < 256 ∧
          ∀ (s : Port) (rest : List (Option Nat)), s.rx = some b0 :: some b1 :: rest →
            (getVariable 16 INPUT_VOLTAGE s).1 = 65535 :=
  ⟨(C18_getVariable_bijection 16 (by decide) INPUT_VOLTAGE).1 (Port.fresh [some 0xFF, some 0xFF])
      0xFF 0xFF [] (by decide) (by decide) rfl,
   (C18_getVariable_bijection 16 (by decide) INPUT_VOLTAGE).2.2 65535 (by decide)⟩

end PololuSMCSerial
